import Mathlib

/-!
Shallow embedding of the flatline constant-time primitive library
(src/flatline.h) and proofs of its specification claims.

Machine words of width `w` are modelled as natural numbers below `2 ^ w`;
C wrapping arithmetic is written with explicit `% 2 ^ w`.  The width-generic
helpers below mirror the per-width C functions, which are textually identical
up to the word width; the `flat_*` definitions instantiate them at the widths
of the source (`size_t` is taken to be 64 bits).
-/

namespace Flatline

/-- Width-generic model of `flat_mask_from_bit_uN` (flatline.h:71-75):
`(uintN)0 - (uintN)(bit & 1u)`. -/
def maskFromBit (w bit : Nat) : Nat := (2 ^ w - (bit &&& 1)) % 2 ^ w

/-- Width-generic model of `flat_mask_is_zero_uN` (flatline.h:77-84):
`((x | (0 - x)) >> (w-1)) - 1` in w-bit unsigned arithmetic. -/
def maskIsZero (w x : Nat) : Nat :=
  (((x ||| ((2 ^ w - x) % 2 ^ w)) >>> (w - 1)) + (2 ^ w - 1)) % 2 ^ w

/-- Width-generic model of `flat_mask_eq_uN` (flatline.h:86-90):
`mask_is_zero (a ^ b)`. -/
def maskEq (w a b : Nat) : Nat := maskIsZero w (a ^^^ b)

/-- Width-generic model of `flat_mask_lt_uN` (flatline.h:93-118):
`t = (a ^ ((a^b) | ((a-b)^b))) >> (w-1); 0 - (t & 1)` in w-bit unsigned
arithmetic (`a - b` wraps modulo `2^w`). -/
def maskLt (w a b : Nat) : Nat :=
  let t := (a ^^^ ((a ^^^ b) ||| (((a + 2 ^ w - b) % 2 ^ w) ^^^ b))) >>> (w - 1)
  (2 ^ w - (t &&& 1)) % 2 ^ w

/-- w-bit bitwise complement `~x` of the C source. -/
def notW (w x : Nat) : Nat := (2 ^ w - 1) ^^^ x

/-- Width-generic model of `flat_select_uN_mask` (flatline.h:124-128):
`(yes & mask) | (no & ~mask)`. -/
def selectMask (w yes no mask : Nat) : Nat := (yes &&& mask) ||| (no &&& notW w mask)

/-- Width-generic model of `flat_select_uN` (flatline.h:130-134). -/
def selectW (w cond yes no : Nat) : Nat := selectMask w yes no (maskFromBit w cond)

/-- `flat_mask_from_bit_u8` (flatline.h:71). -/
def flat_mask_from_bit_u8 (bit : Nat) : Nat := maskFromBit 8 bit

/-- `flat_mask_from_bit_u16` (flatline.h:72). -/
def flat_mask_from_bit_u16 (bit : Nat) : Nat := maskFromBit 16 bit

/-- `flat_mask_from_bit_u32` (flatline.h:73). -/
def flat_mask_from_bit_u32 (bit : Nat) : Nat := maskFromBit 32 bit

/-- `flat_mask_from_bit_u64` (flatline.h:74). -/
def flat_mask_from_bit_u64 (bit : Nat) : Nat := maskFromBit 64 bit

/-- `flat_mask_from_bit_sz` (flatline.h:75), on a 64-bit platform. -/
def flat_mask_from_bit_sz (bit : Nat) : Nat := maskFromBit 64 bit

/-- `flat_mask_is_zero_u8` (flatline.h:77). -/
def flat_mask_is_zero_u8 (x : Nat) : Nat := maskIsZero 8 x

/-- `flat_mask_is_zero_u32` (flatline.h:79). -/
def flat_mask_is_zero_u32 (x : Nat) : Nat := maskIsZero 32 x

/-- `flat_mask_is_zero_u64` (flatline.h:80). -/
def flat_mask_is_zero_u64 (x : Nat) : Nat := maskIsZero 64 x

/-- `flat_mask_eq_u8` (flatline.h:86). -/
def flat_mask_eq_u8 (a b : Nat) : Nat := maskEq 8 a b

/-- `flat_mask_eq_u32` (flatline.h:88). -/
def flat_mask_eq_u32 (a b : Nat) : Nat := maskEq 32 a b

/-- `flat_mask_eq_sz` (flatline.h:90), on a 64-bit platform. -/
def flat_mask_eq_sz (a b : Nat) : Nat := maskEq 64 a b

/-- `flat_mask_lt_u8` (flatline.h:93-97). -/
def flat_mask_lt_u8 (a b : Nat) : Nat := maskLt 8 a b

/-- `flat_mask_lt_u16` (flatline.h:98-102). -/
def flat_mask_lt_u16 (a b : Nat) : Nat := maskLt 16 a b

/-- `flat_mask_lt_u32` (flatline.h:103-107). -/
def flat_mask_lt_u32 (a b : Nat) : Nat := maskLt 32 a b

/-- `flat_mask_lt_u64` (flatline.h:108-112). -/
def flat_mask_lt_u64 (a b : Nat) : Nat := maskLt 64 a b

/-- `flat_mask_lt_sz` (flatline.h:113-118), on a 64-bit platform. -/
def flat_mask_lt_sz (a b : Nat) : Nat := maskLt 64 a b

/-- `flat_mask_to_bit_u32` (flatline.h:119): `m & 1`. -/
def flat_mask_to_bit_u32 (m : Nat) : Nat := m &&& 1

/-- `flat_select_u8` (flatline.h:130). -/
def flat_select_u8 (cond yes no : Nat) : Nat := selectW 8 cond yes no

/-- `flat_select_u16` (flatline.h:131). -/
def flat_select_u16 (cond yes no : Nat) : Nat := selectW 16 cond yes no

/-- `flat_select_u32` (flatline.h:132). -/
def flat_select_u32 (cond yes no : Nat) : Nat := selectW 32 cond yes no

/-- `flat_select_u64` (flatline.h:133). -/
def flat_select_u64 (cond yes no : Nat) : Nat := selectW 64 cond yes no

/-- `flat_select_sz` (flatline.h:134), on a 64-bit platform. -/
def flat_select_sz (cond yes no : Nat) : Nat := selectW 64 cond yes no

/-! ### Basic facts about the mask algebra -/

theorem two_pow_pos (w : Nat) : 0 < 2 ^ w := Nat.pos_pow_of_pos w (by omega)

theorem div_pow_high {h x : Nat} (hx : x < 2 ^ (h + 1)) :
    x / 2 ^ h = if 2 ^ h ≤ x then 1 else 0 := by
  have hp : 0 < 2 ^ h := two_pow_pos h
  by_cases hle : 2 ^ h ≤ x
  · simp only [hle, if_true]
    have h1 : 1 ≤ x / 2 ^ h := (Nat.one_le_div_iff hp).mpr hle
    have h2 : x / 2 ^ h < 2 := by
      apply Nat.div_lt_of_lt_mul
      have : 2 ^ (h + 1) = 2 ^ h * 2 := by rw [Nat.pow_succ]
      omega
    omega
  · simp only [hle, if_false]
    exact Nat.div_eq_of_lt (by omega)

theorem testBit_high {h x : Nat} (hx : x < 2 ^ (h + 1)) :
    x.testBit h = decide (2 ^ h ≤ x) := by
  rw [Nat.testBit_to_div_mod, div_pow_high hx]
  by_cases hle : 2 ^ h ≤ x <;> simp [hle]

theorem maskFromBit_eq (w bit : Nat) (hw : 0 < w) :
    maskFromBit w bit = if bit % 2 = 1 then 2 ^ w - 1 else 0 := by
  unfold maskFromBit
  have h1 : bit &&& 1 = bit % 2 := by
    have := Nat.and_pow_two_sub_one_eq_mod bit 1
    simpa using this
  rw [h1]
  have hp : 0 < 2 ^ w := two_pow_pos w
  rcases Nat.mod_two_eq_zero_or_one bit with h | h <;> rw [h]
  · simp [Nat.mod_self]
  · simp [Nat.mod_eq_of_lt (by omega : 2 ^ w - 1 < 2 ^ w)]

theorem or_high {w x y : Nat} (hw : 0 < w) (hx : x < 2 ^ w) (hy : y < 2 ^ w)
    (h : 2 ^ (w - 1) ≤ x ∨ 2 ^ (w - 1) ≤ y) : 2 ^ (w - 1) ≤ x ||| y := by
  obtain ⟨h', rfl⟩ : ∃ h', w = h' + 1 := ⟨w - 1, by omega⟩
  have hor : x ||| y < 2 ^ (h' + 1) := Nat.or_lt_two_pow hx hy
  have hbit : (x ||| y).testBit h' = (x.testBit h' || y.testBit h') := Nat.testBit_or x y h'
  rw [testBit_high hor, testBit_high hx, testBit_high hy] at hbit
  simp only [Nat.add_sub_cancel] at h ⊢
  rcases h with h | h <;> simp [h] at hbit <;> exact hbit

theorem maskIsZero_eq (w x : Nat) (hw : 0 < w) (hx : x < 2 ^ w) :
    maskIsZero w x = if x = 0 then 2 ^ w - 1 else 0 := by
  unfold maskIsZero
  have hp : 0 < 2 ^ w := two_pow_pos w
  by_cases h0 : x = 0
  · subst h0
    simp [Nat.mod_self, Nat.mod_eq_of_lt (by omega : 2 ^ w - 1 < 2 ^ w)]
  · simp only [h0, if_false]
    have hneg : (2 ^ w - x) % 2 ^ w = 2 ^ w - x := Nat.mod_eq_of_lt (by omega)
    rw [hneg]
    have hy : 2 ^ w - x < 2 ^ w := by omega
    have hhi : 2 ^ (w - 1) ≤ x ||| (2 ^ w - x) := by
      apply or_high hw hx hy
      have h2 : 2 ^ (w - 1) * 2 = 2 ^ w := by
        rw [← Nat.pow_succ]
        congr 1
        omega
      omega
    have hor : x ||| (2 ^ w - x) < 2 ^ w := Nat.or_lt_two_pow hx hy
    have hsh : (x ||| (2 ^ w - x)) >>> (w - 1) = 1 := by
      rw [Nat.shiftRight_eq_div_pow]
      have hw' : x ||| (2 ^ w - x) < 2 ^ ((w - 1) + 1) := by
        have : (w - 1) + 1 = w := by omega
        rw [this]; exact hor
      rw [div_pow_high hw']
      simp [hhi]
    rw [hsh]
    have : 1 + (2 ^ w - 1) = 2 ^ w := by omega
    rw [this, Nat.mod_self]

theorem maskEq_eq (w a b : Nat) (hw : 0 < w) (ha : a < 2 ^ w) (hb : b < 2 ^ w) :
    maskEq w a b = if a = b then 2 ^ w - 1 else 0 := by
  unfold maskEq
  rw [maskIsZero_eq w _ hw (Nat.xor_lt_two_pow ha hb)]
  congr 1
  simp [Nat.xor_eq_zero]

theorem maskLt_eq (w a b : Nat) (hw : 0 < w) (ha : a < 2 ^ w) (hb : b < 2 ^ w) :
    maskLt w a b = if a < b then 2 ^ w - 1 else 0 := by
  unfold maskLt
  obtain ⟨h, rfl⟩ : ∃ h, w = h + 1 := ⟨w - 1, by omega⟩
  simp only [Nat.add_sub_cancel]
  have hp : 0 < 2 ^ (h + 1) := two_pow_pos (h + 1)
  have h2 : 2 ^ (h + 1) = 2 * 2 ^ h := by rw [Nat.pow_succ]; ring
  set d : Nat := (a + 2 ^ (h + 1) - b) % 2 ^ (h + 1) with hd_def
  have hd_lt : d < 2 ^ (h + 1) := Nat.mod_lt _ hp
  have hd : d = if b ≤ a then a - b else a + 2 ^ (h + 1) - b := by
    by_cases hba : b ≤ a
    · simp only [hba, if_true]
      have : a + 2 ^ (h + 1) - b = (a - b) + 1 * 2 ^ (h + 1) := by omega
      rw [hd_def, this, Nat.add_mul_mod_self_right, Nat.mod_eq_of_lt (by omega)]
    · simp only [hba, if_false]
      rw [hd_def, Nat.mod_eq_of_lt (by omega)]
  have hE_lt : a ^^^ ((a ^^^ b) ||| (d ^^^ b)) < 2 ^ (h + 1) :=
    Nat.xor_lt_two_pow ha
      (Nat.or_lt_two_pow (Nat.xor_lt_two_pow ha hb) (Nat.xor_lt_two_pow hd_lt hb))
  have hiff : (2 ^ h ≤ a ^^^ ((a ^^^ b) ||| (d ^^^ b))) ↔ a < b := by
    have hstep : (a ^^^ ((a ^^^ b) ||| (d ^^^ b))).testBit h =
        ((a.testBit h).xor (((a.testBit h).xor (b.testBit h)).or
          ((d.testBit h).xor (b.testBit h)))) := by
      simp [Nat.testBit_xor, Nat.testBit_or]
    rw [testBit_high hE_lt, testBit_high ha, testBit_high hb, testBit_high hd_lt] at hstep
    have hgoal : decide (2 ^ h ≤ a ^^^ ((a ^^^ b) ||| (d ^^^ b))) = decide (a < b) := by
      rw [hstep]
      by_cases hA : 2 ^ h ≤ a <;> by_cases hB : 2 ^ h ≤ b
      · have hDd : (2 ^ h ≤ d) ↔ a < b := by
          rw [hd]
          by_cases hba : b ≤ a <;> simp only [hba, if_true, if_false] <;> omega
        by_cases hab : a < b <;> simp [hA, hB, hab, hDd]
      · have hab : ¬ a < b := by omega
        simp [hA, hB, hab]
      · have hab : a < b := by omega
        simp [hA, hB, hab]
      · have hDd : (2 ^ h ≤ d) ↔ a < b := by
          rw [hd]
          by_cases hba : b ≤ a <;> simp only [hba, if_true, if_false] <;> omega
        by_cases hab : a < b <;> simp [hA, hB, hab, hDd]
    simpa [decide_eq_decide] using hgoal
  have hsh : (a ^^^ ((a ^^^ b) ||| (d ^^^ b))) >>> h = if a < b then 1 else 0 := by
    rw [Nat.shiftRight_eq_div_pow, div_pow_high hE_lt]
    by_cases hab : a < b
    · simp [hab, hiff.mpr hab]
    · have : ¬ 2 ^ h ≤ a ^^^ ((a ^^^ b) ||| (d ^^^ b)) := fun hc => hab (hiff.mp hc)
      simp [hab, this]
  rw [hsh]
  by_cases hab : a < b
  · simp only [hab, if_true]
    have h1 : (1 : Nat) &&& 1 = 1 := rfl
    rw [h1, Nat.mod_eq_of_lt (by omega)]
  · simp only [hab, if_false]
    have h0 : (0 : Nat) &&& 1 = 0 := rfl
    rw [h0, Nat.sub_zero, Nat.mod_self]

theorem and_all_ones {w x : Nat} (hx : x < 2 ^ w) : x &&& (2 ^ w - 1) = x :=
  Nat.and_pow_two_sub_one_of_lt_two_pow hx

theorem notW_zero (w : Nat) : notW w 0 = 2 ^ w - 1 := by simp [notW]

theorem notW_allOnes (w : Nat) : notW w (2 ^ w - 1) = 0 := by simp [notW]

theorem selectMask_ones {w yes no : Nat} (hy : yes < 2 ^ w) :
    selectMask w yes no (2 ^ w - 1) = yes := by
  unfold selectMask
  rw [notW_allOnes, and_all_ones hy]
  simp

theorem selectMask_zero {w yes no : Nat} (hn : no < 2 ^ w) :
    selectMask w yes no 0 = no := by
  unfold selectMask
  rw [notW_zero, and_all_ones hn]
  simp

theorem selectW_eq (w cond yes no : Nat) (hw : 0 < w) (hy : yes < 2 ^ w) (hn : no < 2 ^ w) :
    selectW w cond yes no = if cond % 2 = 1 then yes else no := by
  unfold selectW
  rw [maskFromBit_eq w cond hw]
  by_cases hc : cond % 2 = 1
  · simp only [hc, if_true]; exact selectMask_ones hy
  · simp only [hc, if_false]; exact selectMask_zero hn

/-! ### Constant-time memory scan primitives -/

/-- Loop state of `flat_mem_cmp` (flatline.h:183-199): one step per byte pair,
updating the `(seen, lt, gt)` accumulators. -/
def memCmpLoop : List Nat → List Nat → Nat → Nat → Nat → Nat × Nat × Nat
  | a :: as, b :: bs, seen, lt, gt =>
      memCmpLoop as bs
        (seen ||| (notW 32 seen &&& notW 32 (flat_mask_eq_u32 a b)))
        (lt ||| (notW 32 seen &&& flat_mask_lt_u32 a b))
        (gt ||| (notW 32 seen &&& flat_mask_lt_u32 b a))
  | _, _, seen, lt, gt => (seen, lt, gt)

/-- `flat_mem_cmp` (flatline.h:183-199): returns
`(int)bit(gt) - (int)bit(lt)`. -/
def flat_mem_cmp (a b : List Nat) : Int :=
  (flat_mask_to_bit_u32 (memCmpLoop a b 0 0 0).2.2 : Int) -
    (flat_mask_to_bit_u32 (memCmpLoop a b 0 0 0).2.1 : Int)

/-- Accumulation loop of `flat_mem_eq` (flatline.h:174-181):
`diff |= a[i] ^ b[i]`. -/
def memEqDiff : List Nat → List Nat → Nat → Nat
  | a :: as, b :: bs, diff => memEqDiff as bs (diff ||| (a ^^^ b))
  | _, _, diff => diff

/-- `flat_mem_eq` (flatline.h:174-181). -/
def flat_mem_eq (a b : List Nat) : Nat :=
  flat_mask_is_zero_u32 (memEqDiff a b 0) &&& 1

/-- Modelled from the spec: the sign of `memcmp` over unsigned bytes, i.e.
the lexicographic byte comparison, used as the reference for `flat_mem_cmp`. -/
def memcmpSpec : List Nat → List Nat → Int
  | a :: as, b :: bs => if a < b then -1 else if b < a then 1 else memcmpSpec as bs
  | _, _ => 0

/-! ### Oblivious lookup -/

/-- Loop of `flat_lookup_uN` (flatline.h:204-243) at element width `w`:
`m = (uintN)mask_eq_sz(i, idx); out = (arr[i] & m) | (out & ~m)`. -/
def lookupLoop (w idx : Nat) : List Nat → Nat → Nat → Nat
  | [], _, out => out
  | x :: xs, i, out =>
      lookupLoop w idx xs (i + 1)
        ((x &&& (flat_mask_eq_sz i idx % 2 ^ w)) |||
          (out &&& notW w (flat_mask_eq_sz i idx % 2 ^ w)))

/-- `flat_lookup_u8` (flatline.h:204-213). -/
def flat_lookup_u8 (arr : List Nat) (idx : Nat) : Nat := lookupLoop 8 idx arr 0 0

/-- `flat_lookup_u16` (flatline.h:214-223). -/
def flat_lookup_u16 (arr : List Nat) (idx : Nat) : Nat := lookupLoop 16 idx arr 0 0

/-- `flat_lookup_u32` (flatline.h:224-233). -/
def flat_lookup_u32 (arr : List Nat) (idx : Nat) : Nat := lookupLoop 32 idx arr 0 0

/-- `flat_lookup_u64` (flatline.h:234-243). -/
def flat_lookup_u64 (arr : List Nat) (idx : Nat) : Nat := lookupLoop 64 idx arr 0 0

/-! ### Masked copy and commit -/

/-- Loop of `flat_memcpy_when` (flatline.h:152-161) with the byte mask `m`
already broadcast: `dst[i] = (src[i] & m) | (dst[i] & ~m)`. -/
def memcpyWhenLoop (m : Nat) : List Nat → List Nat → List Nat
  | d :: ds, s :: ss => ((s &&& m) ||| (d &&& notW 8 m)) :: memcpyWhenLoop m ds ss
  | ds, _ => ds

/-- `flat_memcpy_when` (flatline.h:152-161). -/
def flat_memcpy_when (cond : Nat) (dst src : List Nat) : List Nat :=
  memcpyWhenLoop (flat_mask_from_bit_u8 cond) dst src

/-- `flat_commit_if_ok` (flatline.h:1227-1230): a wrapper over
`flat_memcpy_when(ok, dst, tmp, n)`. -/
def flat_commit_if_ok (ok : Nat) (dst tmp : List Nat) : List Nat :=
  flat_memcpy_when ok dst tmp

/-! ### Zero-padding scan -/

/-- Loop of `flat_zeropad_data_len` (flatline.h:285-298); the counter argument
`i + 1` corresponds to the C loop variable `i`, so the byte examined is
`buf[i]` by `getD`. -/
def zeropadLoop (buf : List Nat) : Nat → Nat → Nat → Nat
  | 0, data_len, _ => data_len
  | i + 1, data_len, seen =>
      zeropadLoop buf i
        (flat_select_sz
          ((notW 8 (flat_mask_is_zero_u8 (buf.getD i 0)) &&& 1) &&& notW 64 seen)
          (i + 1) data_len)
        (seen ||| (notW 8 (flat_mask_is_zero_u8 (buf.getD i 0)) &&& 1))

/-- `flat_zeropad_data_len` (flatline.h:285-298). -/
def flat_zeropad_data_len (buf : List Nat) : Nat :=
  zeropadLoop buf buf.length 0 0

/-! ### Min, error accumulator, hardening glue -/

/-- `flat_min_sz` (flatline.h:529-533). -/
def flat_min_sz (a b : Nat) : Nat :=
  let m := flat_mask_lt_sz a b
  b ^^^ ((a ^^^ b) &&& m)

/-- `flat_erracc_init` (flatline.h:1224): the accumulator starts at 0. -/
def flat_erracc_init : Nat := 0

/-- `flat_erracc_or` (flatline.h:1225): `e->acc |= (cond & 1u)`. -/
def flat_erracc_or (acc cond : Nat) : Nat := acc ||| (cond &&& 1)

/-- `flat_erracc_ok` (flatline.h:1226): `mask_is_zero_u32(acc) & 1`. -/
def flat_erracc_ok (acc : Nat) : Nat := flat_mask_is_zero_u32 acc &&& 1

/-- `flat_index_clamp` (flatline.h:1185-1189): `idx & mask_lt_sz(idx, len)`. -/
def flat_index_clamp (idx len : Nat) : Nat := idx &&& flat_mask_lt_sz idx len

/-- `flat_masked_load_u8` (flatline.h:1190-1195): clamps the index, then
reads `base[clamped]` (the speculation fence has no value-level effect). -/
def flat_masked_load_u8 (base : List Nat) (len idx : Nat) : Nat :=
  base.getD (flat_index_clamp idx len) 0

/-! ### Constant-time division -/

/-- Loop of `flat_div_mod_ct_uN` (flatline.h:1310-1341) at width `w`:
the remaining-iteration counter `j + 1` corresponds to the C loop index
`i = j` (MSB-first). -/
def divLoop (w n d : Nat) : Nat → Nat × Nat → Nat × Nat
  | 0, s => s
  | j + 1, s =>
      let rv1 := ((s.2 <<< 1) % 2 ^ w) ||| ((n >>> j) &&& 1)
      let ge := notW w (maskLt w rv1 d)
      let rv2 := (rv1 + 2 ^ w - (d &&& ge)) % 2 ^ w
      let qv2 := s.1 ||| ((1 <<< j) &&& ge)
      divLoop w n d j (qv2, rv2)

/-- `flat_div_mod_ct_u64` (flatline.h:1310-1326), returning `(ok, q, r)`. -/
def flat_div_mod_ct_u64 (n d : Nat) : Nat × Nat × Nat :=
  let s := divLoop 64 n d 64 (0, 0)
  let ok := notW 64 (flat_mask_is_zero_u64 d) &&& 1
  (ok, flat_select_u64 ok s.1 0, flat_select_u64 ok s.2 0)

/-- `flat_div_mod_ct_u32` (flatline.h:1327-1341), returning `(ok, q, r)`. -/
def flat_div_mod_ct_u32 (n d : Nat) : Nat × Nat × Nat :=
  let s := divLoop 32 n d 32 (0, 0)
  let ok := notW 32 (flat_mask_is_zero_u32 d) &&& 1
  (ok, flat_select_u32 ok s.1 0, flat_select_u32 ok s.2 0)

/-! ### PKCS#7 unpad -/

/-- Scan loop of `flat_pkcs7_unpad_ct` (flatline.h:1244-1251):
`diff |= (buf[len-1-i] ^ pad) & in_window` for `i` in `[i0, i0 + fuel)`. -/
def pkcs7DiffLoop (buf : List Nat) (len pad : Nat) : Nat → Nat → Nat → Nat
  | _, 0, diff => diff
  | i, fuel + 1, diff =>
      pkcs7DiffLoop buf len pad (i + 1) fuel
        (diff ||| ((buf.getD (len - 1 - i) 0 ^^^ pad) &&&
          (flat_mask_lt_sz i pad &&& 255)))

/-- `ok1` of `flat_pkcs7_unpad_ct` (flatline.h:1242):
`(pad >= 1u) & (pad <= (uint8_t)block) & (pad <= (uint8_t)len)`;
the `uint8_t` casts become `% 256`. -/
def pkcs7_ok1 (pad block len : Nat) : Nat :=
  (if 1 ≤ pad then 1 else 0) &&&
    (if pad ≤ block % 256 then 1 else 0) &&& (if pad ≤ len % 256 then 1 else 0)

/-- The `ok` value computed by `flat_pkcs7_unpad_ct` (flatline.h:1241-1253):
`ok1 & ok2` with `ok2 = mask_is_zero_u32(diff) & 1` over the scan of the
last `min(len, block)` bytes, where `pad = buf[len-1]`. -/
def pkcs7_ok (buf : List Nat) (block : Nat) : Nat :=
  pkcs7_ok1 (buf.getD (buf.length - 1) 0) block buf.length &&&
    (flat_mask_is_zero_u32
      (pkcs7DiffLoop buf buf.length (buf.getD (buf.length - 1) 0) 0
        (flat_min_sz buf.length block) 0) &&& 1)

/-- `flat_pkcs7_unpad_ct` (flatline.h:1233-1257), returning
`(ok, data_len_out)`; the buffer length plays the role of `len`, and the
`size_t` subtraction `len - pad` wraps modulo `2 ^ 64`. -/
def flat_pkcs7_unpad_ct (buf : List Nat) (block : Nat) : Nat × Nat :=
  if buf.length = 0 ∨ block = 0 then (0, 0)
  else
    (pkcs7_ok buf block,
      flat_select_sz (pkcs7_ok buf block)
        ((buf.length + 2 ^ 64 - buf.getD (buf.length - 1) 0) % 2 ^ 64) 0)

/-! ### Small helper lemmas -/

theorem and_one_eq_mod (x : Nat) : x &&& 1 = x % 2 := by
  have := Nat.and_pow_two_sub_one_eq_mod x 1
  simpa using this

theorem mask_lt_u8_eq {a b : Nat} (ha : a < 2 ^ 8) (hb : b < 2 ^ 8) :
    flat_mask_lt_u8 a b = if a < b then 2 ^ 8 - 1 else 0 :=
  maskLt_eq 8 a b (by omega) ha hb

theorem mask_lt_u16_eq {a b : Nat} (ha : a < 2 ^ 16) (hb : b < 2 ^ 16) :
    flat_mask_lt_u16 a b = if a < b then 2 ^ 16 - 1 else 0 :=
  maskLt_eq 16 a b (by omega) ha hb

theorem mask_lt_u32_eq {a b : Nat} (ha : a < 2 ^ 32) (hb : b < 2 ^ 32) :
    flat_mask_lt_u32 a b = if a < b then 2 ^ 32 - 1 else 0 :=
  maskLt_eq 32 a b (by omega) ha hb

theorem mask_lt_u64_eq {a b : Nat} (ha : a < 2 ^ 64) (hb : b < 2 ^ 64) :
    flat_mask_lt_u64 a b = if a < b then 2 ^ 64 - 1 else 0 :=
  maskLt_eq 64 a b (by omega) ha hb

theorem mask_lt_sz_eq {a b : Nat} (ha : a < 2 ^ 64) (hb : b < 2 ^ 64) :
    flat_mask_lt_sz a b = if a < b then 2 ^ 64 - 1 else 0 :=
  maskLt_eq 64 a b (by omega) ha hb

theorem mask_eq_sz_eq {a b : Nat} (ha : a < 2 ^ 64) (hb : b < 2 ^ 64) :
    flat_mask_eq_sz a b = if a = b then 2 ^ 64 - 1 else 0 :=
  maskEq_eq 64 a b (by omega) ha hb

theorem mask_is_zero_u32_eq {x : Nat} (hx : x < 2 ^ 32) :
    flat_mask_is_zero_u32 x = if x = 0 then 2 ^ 32 - 1 else 0 :=
  maskIsZero_eq 32 x (by omega) hx

theorem mask_is_zero_u64_eq {x : Nat} (hx : x < 2 ^ 64) :
    flat_mask_is_zero_u64 x = if x = 0 then 2 ^ 64 - 1 else 0 :=
  maskIsZero_eq 64 x (by omega) hx

theorem mask_is_zero_u8_eq {x : Nat} (hx : x < 2 ^ 8) :
    flat_mask_is_zero_u8 x = if x = 0 then 2 ^ 8 - 1 else 0 :=
  maskIsZero_eq 8 x (by omega) hx

/-! ### Claim C5: selectors follow the low bit of cond -/

/-- C5: for every integer `cond` and words `x`, `y` of each supported width,
`flat_select_W(cond, x, y)` equals `x` when `cond & 1 = 1` and `y` when
`cond & 1 = 0`; higher bits of `cond` never alter the result. -/
theorem flat_select_low_bit_only :
    (∀ cond x y : Nat, x < 2 ^ 8 → y < 2 ^ 8 →
      flat_select_u8 cond x y = if cond &&& 1 = 1 then x else y) ∧
    (∀ cond x y : Nat, x < 2 ^ 16 → y < 2 ^ 16 →
      flat_select_u16 cond x y = if cond &&& 1 = 1 then x else y) ∧
    (∀ cond x y : Nat, x < 2 ^ 32 → y < 2 ^ 32 →
      flat_select_u32 cond x y = if cond &&& 1 = 1 then x else y) ∧
    (∀ cond x y : Nat, x < 2 ^ 64 → y < 2 ^ 64 →
      flat_select_u64 cond x y = if cond &&& 1 = 1 then x else y) ∧
    (∀ cond x y : Nat, x < 2 ^ 64 → y < 2 ^ 64 →
      flat_select_sz cond x y = if cond &&& 1 = 1 then x else y) := by
  refine ⟨?_, ?_, ?_, ?_, ?_⟩ <;> intro cond x y hx hy <;>
    rw [and_one_eq_mod] <;>
    exact selectW_eq _ cond x y (by omega) hx hy

/-- C5 witness: concrete evaluation at `cond = 2` (low bit clear, higher bit
set) and `cond = 3` for each width. -/
theorem flat_select_low_bit_only_witness :
    flat_select_u8 2 5 9 = 9 ∧ flat_select_u16 2 5 9 = 9 ∧
    flat_select_u32 2 5 9 = 9 ∧ flat_select_u64 2 5 9 = 9 ∧
    flat_select_sz 3 5 9 = 5 := by
  refine ⟨?_, ?_, ?_, ?_, ?_⟩
  · rw [flat_select_low_bit_only.1 2 5 9 (by decide) (by decide)]; decide
  · rw [flat_select_low_bit_only.2.1 2 5 9 (by decide) (by decide)]; decide
  · rw [flat_select_low_bit_only.2.2.1 2 5 9 (by decide) (by decide)]; decide
  · rw [flat_select_low_bit_only.2.2.2.1 2 5 9 (by decide) (by decide)]
    norm_num
  · rw [flat_select_low_bit_only.2.2.2.2 3 5 9 (by decide) (by decide)]
    norm_num

/-! ### Claim C6: mask_lt is all-or-nothing with the comparison in its low bit -/

/-- C6: for all words `a`, `b` of each supported width, `flat_mask_lt_W(a, b)`
is either 0 or the all-ones word, and its low bit is 1 exactly when `a < b`
(for u32 also via `flat_mask_to_bit_u32`). -/
theorem flat_mask_lt_all_or_nothing :
    (∀ a b : Nat, a < 2 ^ 8 → b < 2 ^ 8 →
      (flat_mask_lt_u8 a b = 0 ∨ flat_mask_lt_u8 a b = 2 ^ 8 - 1) ∧
      flat_mask_lt_u8 a b &&& 1 = (if a < b then 1 else 0)) ∧
    (∀ a b : Nat, a < 2 ^ 16 → b < 2 ^ 16 →
      (flat_mask_lt_u16 a b = 0 ∨ flat_mask_lt_u16 a b = 2 ^ 16 - 1) ∧
      flat_mask_lt_u16 a b &&& 1 = (if a < b then 1 else 0)) ∧
    (∀ a b : Nat, a < 2 ^ 32 → b < 2 ^ 32 →
      (flat_mask_lt_u32 a b = 0 ∨ flat_mask_lt_u32 a b = 2 ^ 32 - 1) ∧
      flat_mask_to_bit_u32 (flat_mask_lt_u32 a b) = (if a < b then 1 else 0)) ∧
    (∀ a b : Nat, a < 2 ^ 64 → b < 2 ^ 64 →
      (flat_mask_lt_u64 a b = 0 ∨ flat_mask_lt_u64 a b = 2 ^ 64 - 1) ∧
      flat_mask_lt_u64 a b &&& 1 = (if a < b then 1 else 0)) ∧
    (∀ a b : Nat, a < 2 ^ 64 → b < 2 ^ 64 →
      (flat_mask_lt_sz a b = 0 ∨ flat_mask_lt_sz a b = 2 ^ 64 - 1) ∧
      flat_mask_lt_sz a b &&& 1 = (if a < b then 1 else 0)) := by
  refine ⟨?_, ?_, ?_, ?_, ?_⟩ <;> intro a b ha hb
  · rw [mask_lt_u8_eq ha hb]
    by_cases hab : a < b <;> simp [hab]
  · rw [mask_lt_u16_eq ha hb]
    by_cases hab : a < b <;> simp [hab]
  · rw [mask_lt_u32_eq ha hb]
    unfold flat_mask_to_bit_u32
    by_cases hab : a < b <;> simp [hab]
  · rw [mask_lt_u64_eq ha hb]
    by_cases hab : a < b <;> simp [hab]
  · rw [mask_lt_sz_eq ha hb]
    by_cases hab : a < b <;> simp [hab]

/-- C6 witness: concrete instances of the mask discipline. -/
theorem flat_mask_lt_all_or_nothing_witness :
    (flat_mask_lt_u8 3 7 = 0 ∨ flat_mask_lt_u8 3 7 = 2 ^ 8 - 1) ∧
    (flat_mask_lt_u16 7 3 = 0 ∨ flat_mask_lt_u16 7 3 = 2 ^ 16 - 1) ∧
    flat_mask_to_bit_u32 (flat_mask_lt_u32 3 7) = 1 ∧
    flat_mask_lt_u64 7 3 &&& 1 = 0 ∧
    flat_mask_lt_sz 3 7 &&& 1 = 1 := by
  refine ⟨?_, ?_, ?_, ?_, ?_⟩
  · exact ((flat_mask_lt_all_or_nothing.1 3 7 (by decide) (by decide)).1)
  · exact ((flat_mask_lt_all_or_nothing.2.1 7 3 (by decide) (by decide)).1)
  · rw [(flat_mask_lt_all_or_nothing.2.2.1 3 7 (by decide) (by decide)).2]
    decide
  · rw [(flat_mask_lt_all_or_nothing.2.2.2.1 7 3 (by norm_num) (by norm_num)).2]
    decide
  · rw [(flat_mask_lt_all_or_nothing.2.2.2.2 3 7 (by norm_num) (by norm_num)).2]
    decide

/-! ### Claim C10: index clamp -/

/-- C10: for `len > 0`, `flat_index_clamp(idx, len)` is `idx` when
`idx < len` and 0 otherwise, hence strictly below `len`; for `len = 0` it
returns 0 for every `idx`, so `flat_masked_load_u8(base, 0, idx)` still
reads `base[0]`. -/
theorem flat_index_clamp_spec : ∀ idx len : Nat, idx < 2 ^ 64 → len < 2 ^ 64 →
    (0 < len → (flat_index_clamp idx len = if idx < len then idx else 0) ∧
      flat_index_clamp idx len < len) ∧
    flat_index_clamp idx 0 = 0 ∧
    (∀ base : List Nat, flat_masked_load_u8 base 0 idx = base.getD 0 0) := by
  intro idx len hidx hlen
  have hclamp0 : flat_index_clamp idx 0 = 0 := by
    unfold flat_index_clamp
    rw [mask_lt_sz_eq hidx (two_pow_pos 64)]
    simp
  refine ⟨?_, hclamp0, ?_⟩
  · intro hpos
    unfold flat_index_clamp
    rw [mask_lt_sz_eq hidx hlen]
    by_cases hab : idx < len
    · simp only [hab, if_true]
      rw [and_all_ones hidx]
      exact ⟨rfl, hab⟩
    · simp only [hab, if_false]
      have hz : idx &&& 0 = 0 := by simp
      rw [hz]
      omega
  · intro base
    unfold flat_masked_load_u8
    rw [hclamp0]

/-- C10 witness: clamp at concrete inputs. -/
theorem flat_index_clamp_spec_witness :
    flat_index_clamp 20 16 < 16 ∧ flat_index_clamp 99 0 = 0 ∧
    flat_masked_load_u8 [] 0 99 = 0 := by
  have h := flat_index_clamp_spec 20 16 (by norm_num) (by norm_num)
  have h2 := flat_index_clamp_spec 99 0 (by norm_num) (by norm_num)
  exact ⟨(h.1 (by norm_num)).2, h2.2.1, h2.2.2 []⟩

/-! ### Claim C4: error accumulator -/

theorem erraccFold_spec : ∀ (cs : List Nat) (acc : Nat), acc ≤ 1 →
    List.foldl flat_erracc_or acc cs ≤ 1 ∧
    (List.foldl flat_erracc_or acc cs = 0 ↔ (acc = 0 ∧ ∀ c ∈ cs, c % 2 = 0)) := by
  intro cs
  induction cs with
  | nil => intro acc h; simp [h]
  | cons c cs ih =>
      intro acc h
      have hc : flat_erracc_or acc c = acc ||| c % 2 := by
        unfold flat_erracc_or
        rw [and_one_eq_mod]
      have hcmod : c % 2 ≤ 1 := by omega
      have hor_le : acc ||| c % 2 ≤ 1 := by
        have h1 : acc < 2 ^ 1 := by omega
        have h2 : c % 2 < 2 ^ 1 := by omega
        have := Nat.or_lt_two_pow h1 h2
        omega
      have hor_zero : acc ||| c % 2 = 0 ↔ (acc = 0 ∧ c % 2 = 0) := by
        interval_cases acc <;> rcases Nat.mod_two_eq_zero_or_one c with hm | hm <;>
          rw [hm] <;> simp
      obtain ⟨hle, hiff⟩ := ih (acc ||| c % 2) hor_le
      simp only [List.foldl_cons, hc]
      refine ⟨hle, ?_⟩
      rw [hiff, hor_zero]
      simp only [List.mem_cons]
      constructor
      · rintro ⟨⟨h1, h2⟩, h3⟩
        exact ⟨h1, fun x hx => by rcases hx with rfl | hx; exact h2; exact h3 x hx⟩
      · rintro ⟨h1, h2⟩
        exact ⟨⟨h1, h2 c (Or.inl rfl)⟩, fun x hx => h2 x (Or.inr hx)⟩

/-- C4 counterexample: feeding the condition 2 (nonzero, low bit clear) to the
accumulator is NOT recorded as an error: `ok` still returns 1, contradicting
the claim that any nonzero condition is accumulated. -/
theorem flat_erracc_drops_high_bits :
    flat_erracc_ok (flat_erracc_or flat_erracc_init 2) = 1 ∧ (2 : Nat) ≠ 0 := by
  constructor
  · decide
  · decide

/-- C4 amended: after feeding conditions `c_1 .. c_k` to the accumulator,
`flat_erracc_ok` returns 1 iff every `c_i` had its low bit clear
(`c_i % 2 = 0`); only the low bit of each condition is accumulated. -/
theorem flat_erracc_ok_iff_low_bits_clear : ∀ cs : List Nat,
    flat_erracc_ok (List.foldl flat_erracc_or flat_erracc_init cs) = 1 ↔
      ∀ c ∈ cs, c % 2 = 0 := by
  intro cs
  obtain ⟨hle, hiff⟩ := erraccFold_spec cs 0 (by omega)
  show flat_erracc_ok (List.foldl flat_erracc_or 0 cs) = 1 ↔ _
  have hmask : flat_erracc_ok (List.foldl flat_erracc_or 0 cs) =
      if List.foldl flat_erracc_or 0 cs = 0 then 1 else 0 := by
    unfold flat_erracc_ok
    rw [mask_is_zero_u32_eq (by omega)]
    by_cases h0 : List.foldl flat_erracc_or 0 cs = 0 <;> simp [h0]
  rw [hmask]
  constructor
  · intro h1
    have h0 : List.foldl flat_erracc_or 0 cs = 0 := by
      by_contra hne
      rw [if_neg hne] at h1
      exact absurd h1 (by omega)
    exact (hiff.mp h0).2
  · intro hall
    rw [if_pos (hiff.mpr ⟨rfl, hall⟩)]

/-! ### Claim C7: masked copy and commit -/

theorem memcpyWhenLoop_ones : ∀ (dst src : List Nat), dst.length = src.length →
    (∀ x ∈ src, x < 256) → memcpyWhenLoop 255 dst src = src := by
  intro dst
  induction dst with
  | nil =>
      intro src hlen _
      cases src with
      | nil => rfl
      | cons s ss => simp at hlen
  | cons d ds ih =>
      intro src hlen hsrc
      cases src with
      | nil => simp at hlen
      | cons s ss =>
          unfold memcpyWhenLoop
          have hnot : notW 8 255 = 0 := by decide
          have hs : s &&& 255 = s :=
            and_all_ones (show s < 2 ^ 8 from hsrc s (by simp))
          rw [hnot, hs]
          simp only [Nat.and_zero, Nat.or_zero]
          congr 1
          exact ih ss (by simpa using hlen) (fun x hx => hsrc x (by simp [hx]))

theorem memcpyWhenLoop_zero : ∀ (dst src : List Nat),
    (∀ x ∈ dst, x < 256) → memcpyWhenLoop 0 dst src = dst := by
  intro dst
  induction dst with
  | nil => intro src _; cases src <;> rfl
  | cons d ds ih =>
      intro src hdst
      cases src with
      | nil => rfl
      | cons s ss =>
          unfold memcpyWhenLoop
          have hnot : notW 8 0 = 255 := by decide
          have hd : d &&& 255 = d :=
            and_all_ones (show d < 2 ^ 8 from hdst d (by simp))
          rw [hnot, hd]
          simp only [Nat.and_zero, Nat.zero_or]
          congr 1
          exact ih ss (fun x hx => hdst x (by simp [hx]))

/-- C7: `flat_memcpy_when(1, dst, src, n)` makes `dst` equal to `src`, and
`flat_memcpy_when(0, dst, src, n)` leaves `dst` bit-identical; hence
`flat_commit_if_ok` copies on `ok = 1` and leaves `dst` unchanged on
`ok = 0`. -/
theorem flat_memcpy_when_frame : ∀ (dst src : List Nat), dst.length = src.length →
    (∀ x ∈ dst, x < 256) → (∀ x ∈ src, x < 256) →
    flat_memcpy_when 1 dst src = src ∧ flat_memcpy_when 0 dst src = dst ∧
    flat_commit_if_ok 1 dst src = src ∧ flat_commit_if_ok 0 dst src = dst := by
  intro dst src hlen hdst hsrc
  have hm1 : flat_mask_from_bit_u8 1 = 255 := by decide
  have hm0 : flat_mask_from_bit_u8 0 = 0 := by decide
  have h1 : flat_memcpy_when 1 dst src = src := by
    unfold flat_memcpy_when
    rw [hm1]
    exact memcpyWhenLoop_ones dst src hlen hsrc
  have h0 : flat_memcpy_when 0 dst src = dst := by
    unfold flat_memcpy_when
    rw [hm0]
    exact memcpyWhenLoop_zero dst src hdst
  exact ⟨h1, h0, h1, h0⟩

/-- C7 witness: a concrete copy and a concrete no-op. -/
theorem flat_memcpy_when_frame_witness :
    flat_memcpy_when 1 [10, 20, 30] [1, 2, 3] = [1, 2, 3] ∧
    flat_memcpy_when 0 [10, 20, 30] [1, 2, 3] = [10, 20, 30] ∧
    flat_commit_if_ok 1 [10, 20, 30] [1, 2, 3] = [1, 2, 3] ∧
    flat_commit_if_ok 0 [10, 20, 30] [1, 2, 3] = [10, 20, 30] :=
  flat_memcpy_when_frame [10, 20, 30] [1, 2, 3] (by decide)
    (by decide) (by decide)

/-! ### Claim C8: oblivious lookup -/

theorem allOnes_mod_pow {w : Nat} (hw : w ≤ 64) : (2 ^ 64 - 1) % 2 ^ w = 2 ^ w - 1 := by
  have hp : 0 < 2 ^ w := two_pow_pos w
  obtain ⟨a, ha⟩ : ∃ a, 2 ^ (64 - w) = a + 1 :=
    ⟨2 ^ (64 - w) - 1, by have := two_pow_pos (64 - w); omega⟩
  have he : (a + 1) * 2 ^ w = 2 ^ 64 := by
    rw [← ha, ← pow_add]
    congr 1
    omega
  have hsplit : 2 ^ 64 - 1 = (2 ^ w - 1) + a * 2 ^ w := by
    rw [← he, Nat.succ_mul, Nat.add_sub_assoc (by omega)]
    exact Nat.add_comm _ _
  rw [hsplit, Nat.add_mul_mod_self_right, Nat.mod_eq_of_lt (by omega)]

theorem lookupLoop_spec (w idx : Nat) : ∀ (xs : List Nat) (i out : Nat),
    i + xs.length ≤ 2 ^ 64 → idx < 2 ^ 64 → (∀ x ∈ xs, x < 2 ^ w) →
    out < 2 ^ w → 0 < w → w ≤ 64 →
    lookupLoop w idx xs i out =
      if i ≤ idx ∧ idx < i + xs.length then xs.getD (idx - i) 0 else out := by
  intro xs
  induction xs with
  | nil =>
      intro i out _ _ _ _ _ _
      have hcond : ¬ (i ≤ idx ∧ idx < i + ([] : List Nat).length) := by
        simp only [List.length_nil]
        omega
      rw [if_neg hcond]
      rfl
  | cons x xs ih =>
      intro i out hbound hidx helem hout hw hw64
      have hi : i < 2 ^ 64 := by
        simp only [List.length_cons] at hbound
        omega
      show lookupLoop w idx xs (i + 1)
        ((x &&& (flat_mask_eq_sz i idx % 2 ^ w)) |||
          (out &&& notW w (flat_mask_eq_sz i idx % 2 ^ w))) = _
      rw [mask_eq_sz_eq hi hidx]
      by_cases heq : i = idx
      · subst heq
        rw [if_pos rfl, allOnes_mod_pow hw64]
        have hx : x &&& (2 ^ w - 1) = x := and_all_ones (helem x (by simp))
        rw [notW_allOnes, hx]
        simp only [Nat.and_zero, Nat.or_zero]
        rw [ih (i + 1) x (by simp only [List.length_cons] at hbound; omega) hidx
          (fun y hy => helem y (by simp [hy])) (helem x (by simp)) hw hw64]
        have hcond : ¬ (i + 1 ≤ i ∧ i < i + 1 + xs.length) := by omega
        rw [if_neg hcond]
        have hcond2 : i ≤ i ∧ i < i + (x :: xs).length := by
          simp only [List.length_cons]
          omega
        rw [if_pos hcond2, Nat.sub_self]
        rfl
      · rw [if_neg heq]
        have hz : (0 : Nat) % 2 ^ w = 0 := Nat.zero_mod _
        rw [hz, notW_zero]
        have hout' : out &&& (2 ^ w - 1) = out := and_all_ones hout
        rw [hout']
        simp only [Nat.and_zero, Nat.zero_or]
        rw [ih (i + 1) out (by simp only [List.length_cons] at hbound; omega) hidx
          (fun y hy => helem y (by simp [hy])) hout hw hw64]
        by_cases hcond : i + 1 ≤ idx ∧ idx < i + 1 + xs.length
        · rw [if_pos hcond]
          have hcond2 : i ≤ idx ∧ idx < i + (x :: xs).length := by
            simp only [List.length_cons]
            omega
          rw [if_pos hcond2]
          have hsub : idx - i = (idx - (i + 1)) + 1 := by omega
          rw [hsub]
          rfl
        · rw [if_neg hcond]
          have hcond2 : ¬ (i ≤ idx ∧ idx < i + (x :: xs).length) := by
            simp only [List.length_cons]
            omega
          rw [if_neg hcond2]

/-- C8: for each element width, `flat_lookup_W(arr, len, idx)` returns
`arr[idx]` when `idx < len` and 0 for every out-of-range `idx`. -/
theorem flat_lookup_spec :
    (∀ (arr : List Nat) (idx : Nat), arr.length ≤ 2 ^ 64 → idx < 2 ^ 64 →
      (∀ x ∈ arr, x < 2 ^ 8) →
      flat_lookup_u8 arr idx = if idx < arr.length then arr.getD idx 0 else 0) ∧
    (∀ (arr : List Nat) (idx : Nat), arr.length ≤ 2 ^ 64 → idx < 2 ^ 64 →
      (∀ x ∈ arr, x < 2 ^ 16) →
      flat_lookup_u16 arr idx = if idx < arr.length then arr.getD idx 0 else 0) ∧
    (∀ (arr : List Nat) (idx : Nat), arr.length ≤ 2 ^ 64 → idx < 2 ^ 64 →
      (∀ x ∈ arr, x < 2 ^ 32) →
      flat_lookup_u32 arr idx = if idx < arr.length then arr.getD idx 0 else 0) ∧
    (∀ (arr : List Nat) (idx : Nat), arr.length ≤ 2 ^ 64 → idx < 2 ^ 64 →
      (∀ x ∈ arr, x < 2 ^ 64) →
      flat_lookup_u64 arr idx = if idx < arr.length then arr.getD idx 0 else 0) := by
  refine ⟨?_, ?_, ?_, ?_⟩ <;> intro arr idx hlen hidx helem <;>
    [rw [show flat_lookup_u8 arr idx = lookupLoop 8 idx arr 0 0 from rfl,
      lookupLoop_spec 8 idx arr 0 0 (by omega) hidx helem (two_pow_pos 8) (by omega) (by omega)];
     rw [show flat_lookup_u16 arr idx = lookupLoop 16 idx arr 0 0 from rfl,
      lookupLoop_spec 16 idx arr 0 0 (by omega) hidx helem (two_pow_pos 16) (by omega) (by omega)];
     rw [show flat_lookup_u32 arr idx = lookupLoop 32 idx arr 0 0 from rfl,
      lookupLoop_spec 32 idx arr 0 0 (by omega) hidx helem (two_pow_pos 32) (by omega) (by omega)];
     rw [show flat_lookup_u64 arr idx = lookupLoop 64 idx arr 0 0 from rfl,
      lookupLoop_spec 64 idx arr 0 0 (by omega) hidx helem (two_pow_pos 64) (by omega) (by omega)]] <;>
    simp

/-! ### Claim C3: constant-time comparison and equality -/

theorem or_eq_zero_iff {x y : Nat} : x ||| y = 0 ↔ x = 0 ∧ y = 0 := by
  constructor
  · intro h
    constructor
    · by_contra hx
      obtain ⟨i, hi⟩ := Nat.ne_zero_implies_bit_true hx
      have hb : (x ||| y).testBit i = true := by
        rw [Nat.testBit_or, hi]
        simp
      rw [h] at hb
      simp [Nat.zero_testBit] at hb
    · by_contra hy
      obtain ⟨i, hi⟩ := Nat.ne_zero_implies_bit_true hy
      have hb : (x ||| y).testBit i = true := by
        rw [Nat.testBit_or, hi]
        simp
      rw [h] at hb
      simp [Nat.zero_testBit] at hb
  · rintro ⟨rfl, rfl⟩
    rfl

theorem memCmpLoop_absorb : ∀ (as bs : List Nat) (lt gt : Nat),
    memCmpLoop as bs (2 ^ 32 - 1) lt gt = (2 ^ 32 - 1, lt, gt) := by
  intro as
  induction as with
  | nil => intro bs lt gt; cases bs <;> rfl
  | cons a as ih =>
      intro bs lt gt
      cases bs with
      | nil => rfl
      | cons b bs =>
          show memCmpLoop as bs _ _ _ = _
          rw [notW_allOnes]
          simp only [Nat.zero_and, Nat.or_zero]
          exact ih bs lt gt

theorem memCmpLoop_sign : ∀ (a b : List Nat), a.length = b.length →
    (∀ x ∈ a, x < 256) → (∀ x ∈ b, x < 256) →
    ((flat_mask_to_bit_u32 (memCmpLoop a b 0 0 0).2.2 : Int) -
      (flat_mask_to_bit_u32 (memCmpLoop a b 0 0 0).2.1 : Int)) = memcmpSpec a b := by
  intro a
  induction a with
  | nil =>
      intro b hlen _ _
      cases b with
      | nil => rfl
      | cons y ys => simp at hlen
  | cons x xs ih =>
      intro b hlen ha hb
      cases b with
      | nil => simp at hlen
      | cons y ys =>
          have hx : x < 2 ^ 32 := by have := ha x (by simp); omega
          have hy : y < 2 ^ 32 := by have := hb y (by simp); omega
          have heqm : flat_mask_eq_u32 x y = if x = y then 2 ^ 32 - 1 else 0 :=
            maskEq_eq 32 x y (by omega) hx hy
          have hltm : flat_mask_lt_u32 x y = if x < y then 2 ^ 32 - 1 else 0 :=
            mask_lt_u32_eq hx hy
          have hgtm : flat_mask_lt_u32 y x = if y < x then 2 ^ 32 - 1 else 0 :=
            mask_lt_u32_eq hy hx
          show (flat_mask_to_bit_u32 (memCmpLoop xs ys
              (0 ||| (notW 32 0 &&& notW 32 (flat_mask_eq_u32 x y)))
              (0 ||| (notW 32 0 &&& flat_mask_lt_u32 x y))
              (0 ||| (notW 32 0 &&& flat_mask_lt_u32 y x))).2.2 : Int) -
            (flat_mask_to_bit_u32 (memCmpLoop xs ys
              (0 ||| (notW 32 0 &&& notW 32 (flat_mask_eq_u32 x y)))
              (0 ||| (notW 32 0 &&& flat_mask_lt_u32 x y))
              (0 ||| (notW 32 0 &&& flat_mask_lt_u32 y x))).2.1 : Int) = _
          rw [heqm, hltm, hgtm, notW_zero]
          rcases Nat.lt_trichotomy x y with hxy | hxy | hxy
          · rw [if_pos hxy, if_neg (by omega : ¬ x = y), if_neg (by omega : ¬ y < x)]
            rw [notW_zero]
            have hand : (2 ^ 32 - 1) &&& (2 ^ 32 - 1) = 2 ^ 32 - 1 := Nat.and_self _
            rw [hand]
            simp only [Nat.and_zero, Nat.or_zero, Nat.zero_or]
            rw [memCmpLoop_absorb]
            show (flat_mask_to_bit_u32 0 : Int) -
              (flat_mask_to_bit_u32 (2 ^ 32 - 1) : Int) = memcmpSpec (x :: xs) (y :: ys)
            have h1 : flat_mask_to_bit_u32 0 = 0 := rfl
            have h2 : flat_mask_to_bit_u32 (2 ^ 32 - 1) = 1 := by decide
            rw [h1, h2]
            show (0 : Int) - 1 = memcmpSpec (x :: xs) (y :: ys)
            show (0 : Int) - 1 = if x < y then -1 else if y < x then 1 else memcmpSpec xs ys
            rw [if_pos hxy]
            decide
          · rw [if_pos hxy, if_neg (by omega : ¬ x < y), if_neg (by omega : ¬ y < x)]
            rw [notW_allOnes]
            simp only [Nat.and_zero, Nat.or_zero, Nat.zero_or]
            have hspec : memcmpSpec (x :: xs) (y :: ys) = memcmpSpec xs ys := by
              show (if x < y then (-1 : Int) else if y < x then 1 else memcmpSpec xs ys) = _
              rw [if_neg (by omega : ¬ x < y), if_neg (by omega : ¬ y < x)]
            rw [hspec]
            exact ih ys (by simpa using hlen) (fun z hz => ha z (by simp [hz]))
              (fun z hz => hb z (by simp [hz]))
          · rw [if_pos hxy, if_neg (by omega : ¬ x = y), if_neg (by omega : ¬ x < y)]
            rw [notW_zero]
            have hand : (2 ^ 32 - 1) &&& (2 ^ 32 - 1) = 2 ^ 32 - 1 := Nat.and_self _
            rw [hand]
            simp only [Nat.and_zero, Nat.or_zero, Nat.zero_or]
            rw [memCmpLoop_absorb]
            show (flat_mask_to_bit_u32 (2 ^ 32 - 1) : Int) -
              (flat_mask_to_bit_u32 0 : Int) = memcmpSpec (x :: xs) (y :: ys)
            have h1 : flat_mask_to_bit_u32 0 = 0 := rfl
            have h2 : flat_mask_to_bit_u32 (2 ^ 32 - 1) = 1 := by decide
            rw [h1, h2]
            show (1 : Int) - 0 = if x < y then -1 else if y < x then 1 else memcmpSpec xs ys
            rw [if_neg (by omega : ¬ x < y), if_pos hxy]
            decide

theorem memEqDiff_lt : ∀ (as bs : List Nat) (diff : Nat),
    (∀ x ∈ as, x < 256) → (∀ x ∈ bs, x < 256) → diff < 2 ^ 32 →
    memEqDiff as bs diff < 2 ^ 32 := by
  intro as
  induction as with
  | nil => intro bs diff _ _ h; cases bs <;> exact h
  | cons a as ih =>
      intro bs diff ha hb h
      cases bs with
      | nil => exact h
      | cons b bs =>
          show memEqDiff as bs (diff ||| (a ^^^ b)) < 2 ^ 32
          exact ih bs (diff ||| (a ^^^ b)) (fun z hz => ha z (by simp [hz]))
            (fun z hz => hb z (by simp [hz]))
            (Nat.or_lt_two_pow h
              (Nat.xor_lt_two_pow (by have := ha a (by simp); omega)
                (by have := hb b (by simp); omega)))

theorem memEqDiff_zero_iff : ∀ (as bs : List Nat) (diff : Nat), as.length = bs.length →
    (memEqDiff as bs diff = 0 ↔ diff = 0 ∧ as = bs) := by
  intro as
  induction as with
  | nil =>
      intro bs diff hlen
      cases bs with
      | nil => simp [memEqDiff]
      | cons b bs => simp at hlen
  | cons a as ih =>
      intro bs diff hlen
      cases bs with
      | nil => simp at hlen
      | cons b bs =>
          show memEqDiff as bs (diff ||| (a ^^^ b)) = 0 ↔ _
          rw [ih bs _ (by simpa using hlen), or_eq_zero_iff, Nat.xor_eq_zero]
          constructor
          · rintro ⟨⟨h1, rfl⟩, rfl⟩
            exact ⟨h1, rfl⟩
          · rintro ⟨h1, h2⟩
            cases h2
            exact ⟨⟨h1, rfl⟩, rfl⟩

/-- C3: `flat_mem_cmp` equals the sign of the lexicographic byte comparison
(`memcmp` over unsigned bytes), and `flat_mem_eq` returns 1 exactly on
byte-for-byte equal buffers (for `n = 0` both lists are empty, giving 0
and 1 respectively). -/
theorem flat_mem_cmp_mem_eq_spec : ∀ (a b : List Nat), a.length = b.length →
    (∀ x ∈ a, x < 256) → (∀ x ∈ b, x < 256) →
    flat_mem_cmp a b = memcmpSpec a b ∧
    flat_mem_eq a b = (if a = b then 1 else 0) := by
  intro a b hlen ha hb
  refine ⟨memCmpLoop_sign a b hlen ha hb, ?_⟩
  show flat_mask_is_zero_u32 (memEqDiff a b 0) &&& 1 = _
  have hlt : memEqDiff a b 0 < 2 ^ 32 := memEqDiff_lt a b 0 ha hb (two_pow_pos 32)
  rw [mask_is_zero_u32_eq hlt]
  have hzero := memEqDiff_zero_iff a b 0 hlen
  by_cases heq : a = b
  · rw [if_pos (hzero.mpr ⟨rfl, heq⟩), if_pos heq]
    decide
  · have hne : memEqDiff a b 0 ≠ 0 := fun hc => heq (hzero.mp hc).2
    rw [if_neg hne, if_neg heq]
    decide

/-- C3 witness: the literal scenarios of the spec. -/
theorem flat_mem_cmp_mem_eq_spec_witness :
    flat_mem_cmp [1, 2, 3] [1, 2, 4] = memcmpSpec [1, 2, 3] [1, 2, 4] ∧
    flat_mem_eq [1, 2, 3] [1, 2, 4] = 0 := by
  have h := flat_mem_cmp_mem_eq_spec [1, 2, 3] [1, 2, 4] (by decide)
    (by decide) (by decide)
  refine ⟨h.1, ?_⟩
  rw [h.2]
  decide

/-! ### Claim C9: zero-padding scan -/

theorem getD_lt_of_forall {l : List Nat} {c : Nat} (hc : 0 < c)
    (h : ∀ x ∈ l, x < c) : ∀ n, l.getD n 0 < c := by
  induction l with
  | nil => intro n; simpa using hc
  | cons a l ih =>
      intro n
      cases n with
      | zero => exact h a (by simp)
      | succ n => exact ih (fun x hx => h x (by simp [hx])) n

theorem select_sz_zero {yes no : Nat} (hn : no < 2 ^ 64) :
    flat_select_sz 0 yes no = no := by
  show selectW 64 0 yes no = no
  unfold selectW
  have hm : maskFromBit 64 0 = 0 := rfl
  rw [hm]
  exact selectMask_zero hn

theorem select_sz_one {yes no : Nat} (hy : yes < 2 ^ 64) :
    flat_select_sz 1 yes no = yes := by
  show selectW 64 1 yes no = yes
  unfold selectW
  have hm : maskFromBit 64 1 = 2 ^ 64 - 1 := by
    rw [maskFromBit_eq 64 1 (by omega)]
    decide
  rw [hm]
  exact selectMask_ones hy

theorem nz_bit_eq {x : Nat} (hx : x < 256) :
    notW 8 (flat_mask_is_zero_u8 x) &&& 1 = if x = 0 then 0 else 1 := by
  rw [mask_is_zero_u8_eq (by omega : x < 2 ^ 8)]
  by_cases h0 : x = 0
  · rw [if_pos h0, if_pos h0, notW_allOnes]
    decide
  · rw [if_neg h0, if_neg h0, notW_zero]
    decide

theorem zeropadLoop_absorb : ∀ (buf : List Nat) (i dl : Nat), dl < 2 ^ 64 →
    (∀ x ∈ buf, x < 256) → zeropadLoop buf i dl 1 = dl := by
  intro buf i
  induction i with
  | zero => intro dl _ _; rfl
  | succ i ih =>
      intro dl hdl hbuf
      show zeropadLoop buf i
        (flat_select_sz
          ((notW 8 (flat_mask_is_zero_u8 (buf.getD i 0)) &&& 1) &&& notW 64 1)
          (i + 1) dl)
        (1 ||| (notW 8 (flat_mask_is_zero_u8 (buf.getD i 0)) &&& 1)) = dl
      have hx : buf.getD i 0 < 256 := getD_lt_of_forall (by omega) hbuf i
      rw [nz_bit_eq hx]
      by_cases h0 : buf.getD i 0 = 0
      · rw [if_pos h0]
        have ht : (0 : Nat) &&& notW 64 1 = 0 := Nat.zero_and _
        have hs : (1 : Nat) ||| 0 = 1 := rfl
        rw [ht, hs, select_sz_zero hdl]
        exact ih dl hdl hbuf
      · rw [if_neg h0]
        have ht : (1 : Nat) &&& notW 64 1 = 0 := by decide
        have hs : (1 : Nat) ||| 1 = 1 := rfl
        rw [ht, hs, select_sz_zero hdl]
        exact ih dl hdl hbuf

theorem zeropadLoop_spec : ∀ (buf : List Nat) (i : Nat), i ≤ buf.length →
    buf.length < 2 ^ 64 → (∀ x ∈ buf, x < 256) →
    (zeropadLoop buf i 0 0 = 0 ∧ ∀ j, j < i → buf.getD j 0 = 0) ∨
    (∃ k, k < i ∧ buf.getD k 0 ≠ 0 ∧ zeropadLoop buf i 0 0 = k + 1 ∧
      ∀ j, k < j → j < i → buf.getD j 0 = 0) := by
  intro buf i
  induction i with
  | zero =>
      intro _ _ _
      exact Or.inl ⟨rfl, fun j hj => absurd hj (by omega)⟩
  | succ i ih =>
      intro hle hlen hbuf
      have hx : buf.getD i 0 < 256 := getD_lt_of_forall (by omega) hbuf i
      have hstep : zeropadLoop buf (i + 1) 0 0 = zeropadLoop buf i
          (flat_select_sz
            ((notW 8 (flat_mask_is_zero_u8 (buf.getD i 0)) &&& 1) &&& notW 64 0)
            (i + 1) 0)
          (0 ||| (notW 8 (flat_mask_is_zero_u8 (buf.getD i 0)) &&& 1)) := rfl
      by_cases h0 : buf.getD i 0 = 0
      · rw [hstep, nz_bit_eq hx, if_pos h0]
        have ht : (0 : Nat) &&& notW 64 0 = 0 := Nat.zero_and _
        have hs : (0 : Nat) ||| 0 = 0 := rfl
        rw [ht, hs, select_sz_zero (two_pow_pos 64)]
        rcases ih (by omega) hlen hbuf with ⟨hz, hall⟩ | ⟨k, hk1, hk2, hk3, hk4⟩
        · refine Or.inl ⟨hz, fun j hj => ?_⟩
          rcases Nat.lt_or_ge j i with hji | hji
          · exact hall j hji
          · have : j = i := by omega
            rw [this]
            exact h0
        · refine Or.inr ⟨k, by omega, hk2, hk3, fun j hj1 hj2 => ?_⟩
          rcases Nat.lt_or_ge j i with hji | hji
          · exact hk4 j hj1 hji
          · have : j = i := by omega
            rw [this]
            exact h0
      · rw [hstep, nz_bit_eq hx, if_neg h0]
        have ht : (1 : Nat) &&& notW 64 0 = 1 := by decide
        have hs : (0 : Nat) ||| 1 = 1 := rfl
        rw [ht, hs, select_sz_one (by omega : i + 1 < 2 ^ 64)]
        rw [zeropadLoop_absorb buf i (i + 1) (by omega) hbuf]
        exact Or.inr ⟨i, by omega, h0, rfl, fun j hj1 hj2 => absurd hj1 (by omega)⟩

/-- C9: `flat_zeropad_data_len(buf, n)` is `1 +` the largest index holding a
nonzero byte, and 0 when every byte is zero (in particular for `n = 0`). -/
theorem flat_zeropad_data_len_spec : ∀ buf : List Nat, buf.length < 2 ^ 64 →
    (∀ x ∈ buf, x < 256) →
    (flat_zeropad_data_len buf = 0 ∧ ∀ j, j < buf.length → buf.getD j 0 = 0) ∨
    (∃ k, k < buf.length ∧ buf.getD k 0 ≠ 0 ∧ flat_zeropad_data_len buf = k + 1 ∧
      ∀ j, k < j → j < buf.length → buf.getD j 0 = 0) := by
  intro buf hlen hbuf
  exact zeropadLoop_spec buf buf.length (Nat.le_refl _) hlen hbuf

/-- C9 witness: the spec scenario `[1,2,3,0,...,0]` (here shortened) and the
all-zero buffer, via the main theorem. -/
theorem flat_zeropad_data_len_spec_witness :
    ((flat_zeropad_data_len [1, 2, 3, 0, 0] = 0 ∧
      ∀ j, j < ([1, 2, 3, 0, 0] : List Nat).length →
        ([1, 2, 3, 0, 0] : List Nat).getD j 0 = 0) ∨
    (∃ k, k < ([1, 2, 3, 0, 0] : List Nat).length ∧
      ([1, 2, 3, 0, 0] : List Nat).getD k 0 ≠ 0 ∧
      flat_zeropad_data_len [1, 2, 3, 0, 0] = k + 1 ∧
      ∀ j, k < j → j < ([1, 2, 3, 0, 0] : List Nat).length →
        ([1, 2, 3, 0, 0] : List Nat).getD j 0 = 0)) :=
  flat_zeropad_data_len_spec [1, 2, 3, 0, 0] (by decide) (by decide)

/-! ### Claim C2: constant-time division -/

theorem selectW_ones_cond {w yes no : Nat} (hw : 0 < w) (hy : yes < 2 ^ w) :
    selectW w 1 yes no = yes := by
  unfold selectW
  rw [maskFromBit_eq w 1 hw]
  simp only [Nat.one_mod, if_true]
  exact selectMask_ones hy

theorem selectW_zero_cond {w yes no : Nat} (hw : 0 < w) (hn : no < 2 ^ w) :
    selectW w 0 yes no = no := by
  unfold selectW
  rw [maskFromBit_eq w 0 hw]
  simp only [Nat.zero_mod, if_neg (by omega : ¬ (0 : Nat) = 1)]
  exact selectMask_zero hn

theorem divLoop_succ (w n d j qv rv : Nat) :
    divLoop w n d (j + 1) (qv, rv) =
      divLoop w n d j
        (qv ||| ((1 <<< j) &&&
          notW w (maskLt w (((rv <<< 1) % 2 ^ w) ||| ((n >>> j) &&& 1)) d)),
        ((((rv <<< 1) % 2 ^ w) ||| ((n >>> j) &&& 1)) + 2 ^ w -
          (d &&& notW w (maskLt w (((rv <<< 1) % 2 ^ w) ||| ((n >>> j) &&& 1)) d)))
          % 2 ^ w) := rfl

theorem divLoop_spec (w n d : Nat) (hw : 0 < w) (hn : n < 2 ^ w) (hd : 0 < d)
    (hdw : d < 2 ^ w) : ∀ j, j ≤ w →
    divLoop w n d j ((n >>> j) / d * 2 ^ j, (n >>> j) % d) = (n / d, n % d) := by
  intro j
  induction j with
  | zero =>
      intro _
      show ((n >>> 0) / d * 2 ^ 0, (n >>> 0) % d) = (n / d, n % d)
      rw [Nat.shiftRight_zero, pow_zero, Nat.mul_one]
  | succ j ih =>
      intro hjw
      rw [divLoop_succ]
      set mp := n >>> j with hmp_def
      set m := n >>> (j + 1) with hm_def
      set q1 := m / d with hq1_def
      set rv := m % d with hrv_def
      have hmmp : m = mp / 2 := by
        rw [hm_def, hmp_def]
        exact Nat.shiftRight_succ n j
      have hmpn : mp ≤ n := by
        rw [hmp_def, Nat.shiftRight_eq_div_pow]
        exact Nat.div_le_self _ _
      have hmpw : mp < 2 ^ w := lt_of_le_of_lt hmpn hn
      have hdm : d * q1 + rv = m := Nat.div_add_mod m d
      have hrvd : rv < d := Nat.mod_lt _ hd
      have hrvm : rv ≤ m := Nat.mod_le m d
      have hm2 : mp = 2 * m + mp % 2 := by omega
      have hsl : rv <<< 1 = rv * 2 := by rw [Nat.shiftLeft_eq, pow_one]
      have hmod1 : (rv * 2) % 2 ^ w = rv * 2 := Nat.mod_eq_of_lt (by omega)
      have hor1 : rv * 2 ||| mp % 2 = rv * 2 + mp % 2 := by
        have h21 : (2 : Nat) ^ 1 * rv = rv * 2 := by ring
        have h22 : (2 : Nat) ^ 1 * rv + mp % 2 = 2 ^ 1 * rv ||| mp % 2 :=
          Nat.mul_add_lt_is_or (by omega) rv
        rw [← h21, ← h22]
      rw [hsl, hmod1, and_one_eq_mod mp, hor1]
      set rv1 := rv * 2 + mp % 2 with hrv1_def
      have hrv1w : rv1 < 2 ^ w := by omega
      have hrv1_2d : rv1 < 2 * d := by omega
      have heq : mp = rv1 + 2 * q1 * d := by
        rw [hrv1_def]
        calc mp = 2 * m + mp % 2 := hm2
        _ = 2 * (d * q1 + rv) + mp % 2 := by rw [hdm]
        _ = rv * 2 + mp % 2 + 2 * q1 * d := by ring
      have hdiv : mp / d = rv1 / d + 2 * q1 := by
        rw [heq]
        exact Nat.add_mul_div_right _ _ hd
      have hmod : mp % d = rv1 % d := by
        rw [heq]
        exact Nat.add_mul_mod_self_right _ _ _
      rw [maskLt_eq w rv1 d hw hrv1w hdw]
      by_cases hge : rv1 < d
      · rw [if_pos hge, notW_allOnes, Nat.and_zero, Nat.and_zero, Nat.or_zero,
          Nat.sub_zero]
        have hrc : (rv1 + 2 ^ w) % 2 ^ w = rv1 := by
          rw [Nat.add_mod_right]
          exact Nat.mod_eq_of_lt hrv1w
        rw [hrc]
        have hq : q1 * 2 ^ (j + 1) = mp / d * 2 ^ j := by
          rw [hdiv, Nat.div_eq_of_lt hge, pow_succ]
          ring
        have hr : rv1 = mp % d := by
          rw [hmod, Nat.mod_eq_of_lt hge]
        rw [hq, hr]
        exact ih (by omega)
      · rw [if_neg hge, notW_zero]
        have hd_and : d &&& (2 ^ w - 1) = d := and_all_ones hdw
        have hj_and : (1 <<< j) &&& (2 ^ w - 1) = 2 ^ j := by
          rw [Nat.shiftLeft_eq, Nat.one_mul]
          exact and_all_ones (Nat.pow_lt_pow_right (by omega) (by omega))
        rw [hd_and, hj_and]
        have hrv2 : (rv1 + 2 ^ w - d) % 2 ^ w = rv1 - d := by
          have h1 : rv1 + 2 ^ w - d = (rv1 - d) + 2 ^ w := by omega
          rw [h1, Nat.add_mod_right]
          exact Nat.mod_eq_of_lt (by omega)
        rw [hrv2]
        have hq : q1 * 2 ^ (j + 1) ||| 2 ^ j = mp / d * 2 ^ j := by
          have h1 : q1 * 2 ^ (j + 1) = 2 ^ (j + 1) * q1 := Nat.mul_comm _ _
          have h2 : 2 ^ (j + 1) * q1 + 2 ^ j = 2 ^ (j + 1) * q1 ||| 2 ^ j :=
            Nat.mul_add_lt_is_or (Nat.pow_lt_pow_right (by omega) (by omega)) q1
          have h3 : rv1 / d = 1 := Nat.div_eq_of_lt_le (by omega) (by omega)
          rw [h1, ← h2, hdiv, h3, pow_succ]
          ring
        rw [hq]
        have hr : rv1 - d = mp % d := by
          rw [hmod, Nat.mod_eq_sub_mod (by omega)]
          exact (Nat.mod_eq_of_lt (by omega)).symm
        rw [hr]
        exact ih (by omega)

theorem divLoop_full (w n d : Nat) (hw : 0 < w) (hn : n < 2 ^ w) (hd : 0 < d)
    (hdw : d < 2 ^ w) : divLoop w n d w (0, 0) = (n / d, n % d) := by
  have h0 : n >>> w = 0 := by
    rw [Nat.shiftRight_eq_div_pow]
    exact Nat.div_eq_of_lt hn
  have h := divLoop_spec w n d hw hn hd hdw w (Nat.le_refl w)
  rw [h0, Nat.zero_div, Nat.zero_mod, Nat.zero_mul] at h
  exact h

/-- C2: for both widths, `flat_div_mod_ct` returns `ok = 1` with
`n = q * d + r` and `r < d` when the divisor is nonzero, and
`(ok, q, r) = (0, 0, 0)` when the divisor is zero. -/
theorem flat_div_mod_ct_spec :
    (∀ n d : Nat, n < 2 ^ 64 → d < 2 ^ 64 →
      (d ≠ 0 → (flat_div_mod_ct_u64 n d).1 = 1 ∧
        (flat_div_mod_ct_u64 n d).2.1 * d + (flat_div_mod_ct_u64 n d).2.2 = n ∧
        (flat_div_mod_ct_u64 n d).2.2 < d) ∧
      (d = 0 → flat_div_mod_ct_u64 n d = (0, 0, 0))) ∧
    (∀ n d : Nat, n < 2 ^ 32 → d < 2 ^ 32 →
      (d ≠ 0 → (flat_div_mod_ct_u32 n d).1 = 1 ∧
        (flat_div_mod_ct_u32 n d).2.1 * d + (flat_div_mod_ct_u32 n d).2.2 = n ∧
        (flat_div_mod_ct_u32 n d).2.2 < d) ∧
      (d = 0 → flat_div_mod_ct_u32 n d = (0, 0, 0))) := by
  constructor
  · intro n d hn hd
    constructor
    · intro hdne
      have hd0 : 0 < d := Nat.pos_of_ne_zero hdne
      have hfull := divLoop_full 64 n d (by omega) hn hd0 hd
      have hmz : flat_mask_is_zero_u64 d = 0 := by
        rw [mask_is_zero_u64_eq hd, if_neg hdne]
      have hok : notW 64 (flat_mask_is_zero_u64 d) &&& 1 = 1 := by
        rw [hmz, notW_zero]
        decide
      have hdef : flat_div_mod_ct_u64 n d =
          (notW 64 (flat_mask_is_zero_u64 d) &&& 1,
            flat_select_u64 (notW 64 (flat_mask_is_zero_u64 d) &&& 1)
              (divLoop 64 n d 64 (0, 0)).1 0,
            flat_select_u64 (notW 64 (flat_mask_is_zero_u64 d) &&& 1)
              (divLoop 64 n d 64 (0, 0)).2 0) := rfl
      rw [hdef, hok, hfull]
      have hq : n / d < 2 ^ 64 := lt_of_le_of_lt (Nat.div_le_self n d) hn
      have hr : n % d < 2 ^ 64 := lt_of_le_of_lt (Nat.mod_le n d) hn
      have hs1 : flat_select_u64 1 (n / d, n % d).1 0 = n / d :=
        selectW_ones_cond (by omega) hq
      have hs2 : flat_select_u64 1 (n / d, n % d).2 0 = n % d :=
        selectW_ones_cond (by omega) hr
      refine ⟨rfl, ?_, ?_⟩
      · show flat_select_u64 1 (n / d, n % d).1 0 * d +
          flat_select_u64 1 (n / d, n % d).2 0 = n
        rw [hs1, hs2, Nat.mul_comm]
        exact Nat.div_add_mod n d
      · show flat_select_u64 1 (n / d, n % d).2 0 < d
        rw [hs2]
        exact Nat.mod_lt _ hd0
    · intro hd0
      subst hd0
      have hmz : flat_mask_is_zero_u64 0 = 2 ^ 64 - 1 := by
        rw [mask_is_zero_u64_eq (two_pow_pos 64), if_pos rfl]
      have hok : notW 64 (flat_mask_is_zero_u64 0) &&& 1 = 0 := by
        rw [hmz, notW_allOnes]
        decide
      have hdef : flat_div_mod_ct_u64 n 0 =
          (notW 64 (flat_mask_is_zero_u64 0) &&& 1,
            flat_select_u64 (notW 64 (flat_mask_is_zero_u64 0) &&& 1)
              (divLoop 64 n 0 64 (0, 0)).1 0,
            flat_select_u64 (notW 64 (flat_mask_is_zero_u64 0) &&& 1)
              (divLoop 64 n 0 64 (0, 0)).2 0) := rfl
      rw [hdef, hok]
      have hsA : flat_select_u64 0 (divLoop 64 n 0 64 (0, 0)).1 0 = 0 :=
        selectW_zero_cond (by omega) (two_pow_pos 64)
      have hsB : flat_select_u64 0 (divLoop 64 n 0 64 (0, 0)).2 0 = 0 :=
        selectW_zero_cond (by omega) (two_pow_pos 64)
      rw [hsA, hsB]
  · intro n d hn hd
    constructor
    · intro hdne
      have hd0 : 0 < d := Nat.pos_of_ne_zero hdne
      have hfull := divLoop_full 32 n d (by omega) hn hd0 hd
      have hmz : flat_mask_is_zero_u32 d = 0 := by
        rw [mask_is_zero_u32_eq hd, if_neg hdne]
      have hok : notW 32 (flat_mask_is_zero_u32 d) &&& 1 = 1 := by
        rw [hmz, notW_zero]
        decide
      have hdef : flat_div_mod_ct_u32 n d =
          (notW 32 (flat_mask_is_zero_u32 d) &&& 1,
            flat_select_u32 (notW 32 (flat_mask_is_zero_u32 d) &&& 1)
              (divLoop 32 n d 32 (0, 0)).1 0,
            flat_select_u32 (notW 32 (flat_mask_is_zero_u32 d) &&& 1)
              (divLoop 32 n d 32 (0, 0)).2 0) := rfl
      rw [hdef, hok, hfull]
      have hq : n / d < 2 ^ 32 := lt_of_le_of_lt (Nat.div_le_self n d) hn
      have hr : n % d < 2 ^ 32 := lt_of_le_of_lt (Nat.mod_le n d) hn
      have hs1 : flat_select_u32 1 (n / d, n % d).1 0 = n / d :=
        selectW_ones_cond (by omega) hq
      have hs2 : flat_select_u32 1 (n / d, n % d).2 0 = n % d :=
        selectW_ones_cond (by omega) hr
      refine ⟨rfl, ?_, ?_⟩
      · show flat_select_u32 1 (n / d, n % d).1 0 * d +
          flat_select_u32 1 (n / d, n % d).2 0 = n
        rw [hs1, hs2, Nat.mul_comm]
        exact Nat.div_add_mod n d
      · show flat_select_u32 1 (n / d, n % d).2 0 < d
        rw [hs2]
        exact Nat.mod_lt _ hd0
    · intro hd0
      subst hd0
      have hmz : flat_mask_is_zero_u32 0 = 2 ^ 32 - 1 := by
        rw [mask_is_zero_u32_eq (two_pow_pos 32), if_pos rfl]
      have hok : notW 32 (flat_mask_is_zero_u32 0) &&& 1 = 0 := by
        rw [hmz, notW_allOnes]
        decide
      have hdef : flat_div_mod_ct_u32 n 0 =
          (notW 32 (flat_mask_is_zero_u32 0) &&& 1,
            flat_select_u32 (notW 32 (flat_mask_is_zero_u32 0) &&& 1)
              (divLoop 32 n 0 32 (0, 0)).1 0,
            flat_select_u32 (notW 32 (flat_mask_is_zero_u32 0) &&& 1)
              (divLoop 32 n 0 32 (0, 0)).2 0) := rfl
      rw [hdef, hok]
      have hsA : flat_select_u32 0 (divLoop 32 n 0 32 (0, 0)).1 0 = 0 :=
        selectW_zero_cond (by omega) (two_pow_pos 32)
      have hsB : flat_select_u32 0 (divLoop 32 n 0 32 (0, 0)).2 0 = 0 :=
        selectW_zero_cond (by omega) (two_pow_pos 32)
      rw [hsA, hsB]

/-- C2 witness: `13 / 5` at both widths and a zero divisor. -/
theorem flat_div_mod_ct_spec_witness :
    ((flat_div_mod_ct_u64 13 5).1 = 1 ∧
      (flat_div_mod_ct_u64 13 5).2.1 * 5 + (flat_div_mod_ct_u64 13 5).2.2 = 13 ∧
      (flat_div_mod_ct_u64 13 5).2.2 < 5) ∧
    ((flat_div_mod_ct_u32 13 5).1 = 1 ∧
      (flat_div_mod_ct_u32 13 5).2.1 * 5 + (flat_div_mod_ct_u32 13 5).2.2 = 13 ∧
      (flat_div_mod_ct_u32 13 5).2.2 < 5) ∧
    flat_div_mod_ct_u64 7 0 = (0, 0, 0) :=
  ⟨(flat_div_mod_ct_spec.1 13 5 (by norm_num) (by norm_num)).1 (by norm_num),
   (flat_div_mod_ct_spec.2 13 5 (by norm_num) (by norm_num)).1 (by norm_num),
   (flat_div_mod_ct_spec.1 7 0 (by norm_num) (by norm_num)).2 rfl⟩

/-! ### Claim C1: PKCS#7 unpad -/

theorem min_sz_eq {a b : Nat} (ha : a < 2 ^ 64) (hb : b < 2 ^ 64) :
    flat_min_sz a b = min a b := by
  show b ^^^ ((a ^^^ b) &&& flat_mask_lt_sz a b) = min a b
  rw [mask_lt_sz_eq ha hb]
  by_cases hab : a < b
  · rw [if_pos hab, and_all_ones (Nat.xor_lt_two_pow ha hb)]
    rw [Nat.xor_comm a b, Nat.xor_cancel_left]
    omega
  · rw [if_neg hab, Nat.and_zero, Nat.xor_zero]
    omega

theorem pkcs7DiffLoop_spec (buf : List Nat) (len pad : Nat) (hpad : pad < 256)
    (hb : ∀ x ∈ buf, x < 256) :
    ∀ (fuel i diff : Nat), i + fuel ≤ 2 ^ 64 → diff < 256 →
    pkcs7DiffLoop buf len pad i fuel diff < 256 ∧
    (pkcs7DiffLoop buf len pad i fuel diff = 0 ↔
      (diff = 0 ∧ ∀ j, i ≤ j → j < i + fuel → j < pad →
        buf.getD (len - 1 - j) 0 = pad)) := by
  intro fuel
  induction fuel with
  | zero =>
      intro i diff _ hdiff
      refine ⟨hdiff, ?_, ?_⟩
      · intro h
        exact ⟨h, fun j hj1 hj2 _ => absurd hj2 (by omega)⟩
      · intro h
        exact h.1
  | succ fuel ih =>
      intro i diff hbound hdiff
      have hi64 : i < 2 ^ 64 := by omega
      have hmask : flat_mask_lt_sz i pad = if i < pad then 2 ^ 64 - 1 else 0 :=
        mask_lt_sz_eq hi64 (by omega)
      have hbyte : buf.getD (len - 1 - i) 0 < 256 := getD_lt_of_forall (by omega) hb _
      have hstep : pkcs7DiffLoop buf len pad i (fuel + 1) diff =
          pkcs7DiffLoop buf len pad (i + 1) fuel
            (diff ||| ((buf.getD (len - 1 - i) 0 ^^^ pad) &&&
              (flat_mask_lt_sz i pad &&& 255))) := rfl
      rw [hstep, hmask]
      by_cases hw : i < pad
      · rw [if_pos hw]
        have h255 : (2 ^ 64 - 1 : Nat) &&& 255 = 255 := by decide
        rw [h255]
        have hand : (buf.getD (len - 1 - i) 0 ^^^ pad) &&& 255 =
            buf.getD (len - 1 - i) 0 ^^^ pad := by
          have h8 : (255 : Nat) = 2 ^ 8 - 1 := by norm_num
          rw [h8]
          exact and_all_ones (Nat.xor_lt_two_pow (by omega) (by omega))
        rw [hand]
        have hxlt : buf.getD (len - 1 - i) 0 ^^^ pad < 256 := by
          have := Nat.xor_lt_two_pow (n := 8)
            (show buf.getD (len - 1 - i) 0 < 2 ^ 8 by omega)
            (show pad < 2 ^ 8 by omega)
          omega
        obtain ⟨ihlt, ihiff⟩ := ih (i + 1)
          (diff ||| (buf.getD (len - 1 - i) 0 ^^^ pad)) (by omega)
          (by
            have := Nat.or_lt_two_pow (n := 8) (show diff < 2 ^ 8 by omega)
              (show buf.getD (len - 1 - i) 0 ^^^ pad < 2 ^ 8 by omega)
            omega)
        refine ⟨ihlt, ?_⟩
        rw [ihiff, or_eq_zero_iff, Nat.xor_eq_zero]
        constructor
        · rintro ⟨⟨hd0, hbp⟩, hrest⟩
          refine ⟨hd0, fun j hj1 hj2 hj3 => ?_⟩
          rcases Nat.eq_or_lt_of_le hj1 with heq | hgt
          · rw [← heq]
            exact hbp
          · exact hrest j (by omega) (by omega) hj3
        · rintro ⟨hd0, hall⟩
          exact ⟨⟨hd0, hall i (Nat.le_refl i) (by omega) hw⟩,
            fun j hj1 hj2 hj3 => hall j (by omega) (by omega) hj3⟩
      · rw [if_neg hw]
        have h0 : (0 : Nat) &&& 255 = 0 := rfl
        rw [h0, Nat.and_zero, Nat.or_zero]
        obtain ⟨ihlt, ihiff⟩ := ih (i + 1) diff (by omega) hdiff
        refine ⟨ihlt, ?_⟩
        rw [ihiff]
        constructor
        · rintro ⟨hd0, hrest⟩
          refine ⟨hd0, fun j hj1 hj2 hj3 => ?_⟩
          exact hrest j (by omega) (by omega) hj3
        · rintro ⟨hd0, hall⟩
          exact ⟨hd0, fun j hj1 hj2 hj3 => hall j (by omega) (by omega) hj3⟩

theorem pkcs7_ok1_eq {pad block len : Nat} :
    pkcs7_ok1 pad block len =
      if 1 ≤ pad ∧ pad ≤ block % 256 ∧ pad ≤ len % 256 then 1 else 0 := by
  unfold pkcs7_ok1
  by_cases h1 : 1 ≤ pad <;> by_cases h2 : pad ≤ block % 256 <;>
    by_cases h3 : pad ≤ len % 256 <;>
    simp only [h1, h2, h3, if_true, if_false, and_true, and_false, true_and,
      false_and, if_pos, not_false_iff] <;>
    rfl

theorem and_bits_if (c1 c2 : Prop) [Decidable c1] [Decidable c2] :
    ((if c1 then (1 : Nat) else 0) &&& (if c2 then 1 else 0)) =
      if c1 ∧ c2 then 1 else 0 := by
  by_cases h1 : c1 <;> by_cases h2 : c2 <;> simp [h1, h2]

/-- C1 (amended): with the `uint8_t` truncation of the C source, `ok = 1`
iff the buffer ends with `k` copies of byte `k` for some `k` with
`1 ≤ k ≤ block mod 256` and `k ≤ n mod 256`; on success `out_len = n - pad`
(`pad` the final byte, which equals that `k`), otherwise `out_len = 0`; and
`n = 0` or `block = 0` yields `(0, 0)`. -/
theorem flat_pkcs7_unpad_ct_spec : ∀ (buf : List Nat) (block : Nat),
    buf.length < 2 ^ 64 → block < 2 ^ 64 → (∀ x ∈ buf, x < 256) →
    (buf.length = 0 ∨ block = 0 → flat_pkcs7_unpad_ct buf block = (0, 0)) ∧
    (buf.length ≠ 0 → block ≠ 0 →
      ((flat_pkcs7_unpad_ct buf block).1 = 0 ∨
        (flat_pkcs7_unpad_ct buf block).1 = 1) ∧
      ((flat_pkcs7_unpad_ct buf block).1 = 1 ↔
        ∃ k, 1 ≤ k ∧ k ≤ block % 256 ∧ k ≤ buf.length % 256 ∧
          ∀ j, j < k → buf.getD (buf.length - 1 - j) 0 = k) ∧
      ((flat_pkcs7_unpad_ct buf block).1 = 1 →
        (flat_pkcs7_unpad_ct buf block).2 =
          buf.length - buf.getD (buf.length - 1) 0) ∧
      ((flat_pkcs7_unpad_ct buf block).1 = 0 →
        (flat_pkcs7_unpad_ct buf block).2 = 0)) := by
  intro buf block hlen hblock hb
  constructor
  · intro h0
    unfold flat_pkcs7_unpad_ct
    rw [if_pos h0]
  · intro hn0 hb0
    have hne : ¬ (buf.length = 0 ∨ block = 0) := by
      push_neg
      exact ⟨hn0, hb0⟩
    have hfst : (flat_pkcs7_unpad_ct buf block).1 = pkcs7_ok buf block := by
      unfold flat_pkcs7_unpad_ct
      rw [if_neg hne]
    have hsnd : (flat_pkcs7_unpad_ct buf block).2 =
        flat_select_sz (pkcs7_ok buf block)
          ((buf.length + 2 ^ 64 - buf.getD (buf.length - 1) 0) % 2 ^ 64) 0 := by
      unfold flat_pkcs7_unpad_ct
      rw [if_neg hne]
    have hpadlt : buf.getD (buf.length - 1) 0 < 256 := getD_lt_of_forall (by omega) hb _
    have hmin : flat_min_sz buf.length block = min buf.length block :=
      min_sz_eq hlen hblock
    obtain ⟨hdlt, hdiff_iff⟩ := pkcs7DiffLoop_spec buf buf.length
      (buf.getD (buf.length - 1) 0) hpadlt hb (min buf.length block) 0 0
      (by have := Nat.min_le_left buf.length block; omega) (by omega)
    have hok_def : pkcs7_ok buf block =
        pkcs7_ok1 (buf.getD (buf.length - 1) 0) block buf.length &&&
          (flat_mask_is_zero_u32
            (pkcs7DiffLoop buf buf.length (buf.getD (buf.length - 1) 0) 0
              (min buf.length block) 0) &&& 1) := by
      unfold pkcs7_ok
      rw [hmin]
    set D := pkcs7DiffLoop buf buf.length (buf.getD (buf.length - 1) 0) 0
      (min buf.length block) 0 with hD_def
    have hok2 : flat_mask_is_zero_u32 D &&& 1 = if D = 0 then 1 else 0 := by
      rw [mask_is_zero_u32_eq (by omega : D < 2 ^ 32)]
      by_cases h : D = 0
      · rw [if_pos h, if_pos h]
        decide
      · rw [if_neg h, if_neg h]
        decide
    have hok_val : pkcs7_ok buf block =
        if (1 ≤ buf.getD (buf.length - 1) 0 ∧
            buf.getD (buf.length - 1) 0 ≤ block % 256 ∧
            buf.getD (buf.length - 1) 0 ≤ buf.length % 256) ∧ D = 0
          then 1 else 0 := by
      rw [hok_def, pkcs7_ok1_eq, hok2, and_bits_if]
    refine ⟨?_, ?_, ?_, ?_⟩
    · rw [hfst, hok_val]
      by_cases h : (1 ≤ buf.getD (buf.length - 1) 0 ∧
          buf.getD (buf.length - 1) 0 ≤ block % 256 ∧
          buf.getD (buf.length - 1) 0 ≤ buf.length % 256) ∧ D = 0
      · rw [if_pos h]
        exact Or.inr rfl
      · rw [if_neg h]
        exact Or.inl rfl
    · rw [hfst, hok_val]
      constructor
      · intro h1
        by_cases hc : (1 ≤ buf.getD (buf.length - 1) 0 ∧
            buf.getD (buf.length - 1) 0 ≤ block % 256 ∧
            buf.getD (buf.length - 1) 0 ≤ buf.length % 256) ∧ D = 0
        · obtain ⟨⟨hp1, hp2, hp3⟩, hd0⟩ := hc
          refine ⟨buf.getD (buf.length - 1) 0, hp1, hp2, hp3, ?_⟩
          intro j hj
          obtain ⟨_, hall⟩ := hdiff_iff.mp hd0
          apply hall j (by omega) ?_ (by omega)
          have hm1 : buf.length % 256 ≤ buf.length := Nat.mod_le _ _
          have hm2 : block % 256 ≤ block := Nat.mod_le _ _
          omega
        · rw [if_neg hc] at h1
          exact absurd h1 (by omega)
      · rintro ⟨k, hk1, hk2, hk3, hkb⟩
        have hpadk : buf.getD (buf.length - 1) 0 = k := by
          have := hkb 0 (by omega)
          rwa [Nat.sub_zero] at this
        have hd0 : D = 0 := by
          apply hdiff_iff.mpr
          refine ⟨rfl, fun j hj1 hj2 hj3 => ?_⟩
          rw [hpadk] at hj3 ⊢
          exact hkb j hj3
        rw [if_pos ⟨⟨by omega, by omega, by omega⟩, hd0⟩]
    · intro hok1
      rw [hfst, hok_val] at hok1
      have hc : (1 ≤ buf.getD (buf.length - 1) 0 ∧
          buf.getD (buf.length - 1) 0 ≤ block % 256 ∧
          buf.getD (buf.length - 1) 0 ≤ buf.length % 256) ∧ D = 0 := by
        by_contra hc
        rw [if_neg hc] at hok1
        exact absurd hok1 (by omega)
      obtain ⟨⟨hp1, hp2, hp3⟩, hd0⟩ := hc
      rw [hsnd]
      have hpado : buf.getD (buf.length - 1) 0 ≤ buf.length := by
        have := Nat.mod_le buf.length 256
        omega
      have hdl : (buf.length + 2 ^ 64 - buf.getD (buf.length - 1) 0) % 2 ^ 64 =
          buf.length - buf.getD (buf.length - 1) 0 := by
        have h1 : buf.length + 2 ^ 64 - buf.getD (buf.length - 1) 0 =
            (buf.length - buf.getD (buf.length - 1) 0) + 2 ^ 64 := by omega
        rw [h1, Nat.add_mod_right]
        exact Nat.mod_eq_of_lt (by omega)
      have hokv : pkcs7_ok buf block = 1 := by
        rw [hok_val, if_pos ⟨⟨hp1, hp2, hp3⟩, hd0⟩]
      rw [hdl, hokv]
      exact select_sz_one (by omega)
    · intro hok0
      rw [hfst] at hok0
      rw [hsnd, hok0]
      exact select_sz_zero (two_pow_pos 64)

/-- C1 witness: the degenerate case and a valid 2-byte padding, through the
main theorem. -/
theorem flat_pkcs7_unpad_ct_spec_witness :
    flat_pkcs7_unpad_ct [] 5 = (0, 0) ∧
    ((flat_pkcs7_unpad_ct [2, 2] 16).1 = 1 ↔
      ∃ k, 1 ≤ k ∧ k ≤ 16 % 256 ∧ k ≤ ([2, 2] : List Nat).length % 256 ∧
        ∀ j, j < k →
          ([2, 2] : List Nat).getD (([2, 2] : List Nat).length - 1 - j) 0 = k) := by
  constructor
  · exact (flat_pkcs7_unpad_ct_spec [] 5 (by decide) (by norm_num)
      (by decide)).1 (Or.inl rfl)
  · exact ((flat_pkcs7_unpad_ct_spec [2, 2] 16 (by decide) (by norm_num)
      (by decide)).2 (by decide) (by norm_num)).2.1

/-- C1 counterexample: for `buf = [1]` and `block = 256` the buffer ends
with `k = 1` copies of the byte 1 with `1 ≤ k ≤ block` and `k ≤ n`, so the
claim demands `ok = 1`; the code truncates `block` to `(uint8_t)block = 0`
and returns `ok = 0`. -/
theorem flat_pkcs7_unpad_ct_truncates_block :
    (flat_pkcs7_unpad_ct [1] 256).1 = 0 ∧
    (1 ≤ (1 : Nat) ∧ (1 : Nat) ≤ 256 ∧ (1 : Nat) ≤ ([1] : List Nat).length ∧
      ∀ j, j < 1 → ([1] : List Nat).getD (([1] : List Nat).length - 1 - j) 0 = 1) := by
  constructor
  · decide
  · refine ⟨by norm_num, by norm_num, by decide, ?_⟩
    intro j hj
    interval_cases j
    decide

/-- C8 witness: an in-range and an out-of-range lookup. -/
theorem flat_lookup_spec_witness :
    flat_lookup_u8 [5, 6, 7] 1 = 6 ∧ flat_lookup_u32 [5, 6, 7] 99 = 0 := by
  constructor
  · rw [flat_lookup_spec.1 [5, 6, 7] 1 (by norm_num) (by norm_num) (by decide)]
    decide
  · rw [flat_lookup_spec.2.2.1 [5, 6, 7] 99 (by norm_num) (by norm_num) (by decide)]
    decide
